/-
Verification of the release catalog merge engine of ALTMediaWriter
(src/app/releasemanager.cpp, src/app/releasemanager.h).

The definitions below are a shallow embedding of the C++ code: QString
becomes String, QList becomes List, the Qt signal emissions become an
explicit list of `Sig` values returned by each operation, and the
nullable `ReleaseArchitecture *` pointer becomes `Option ArchId`.
Each definition's doc comment names the C++ function it embeds.
-/

import Mathlib

set_option linter.unusedVariables false

/-- ASCII lower-casing of one character (helper for `QString::toLower`). -/
def lowerChar (c : Char) : Char :=
  if 65 ≤ c.toNat ∧ c.toNat ≤ 90 then Char.ofNat (c.toNat + 32) else c

/-- Models `QString::toLower` (ASCII range, which is all the catalog data uses). -/
def lowerStr (s : String) : String := ⟨s.data.map lowerChar⟩

/-- Boolean test that `needle` starts `hay` (helper for substring containment). -/
def startsWithL : List Char → List Char → Bool
  | [], _ => true
  | _ :: _, [] => false
  | a :: as, b :: bs => a == b && startsWithL as bs

/-- Boolean substring containment on character lists (helper for `QString::contains`). -/
def isInfixL (needle : List Char) : List Char → Bool
  | [] => startsWithL needle []
  | c :: t => startsWithL needle (c :: t) || isInfixL needle t

/-- Models case-sensitive `QString::contains(needle)`. -/
def qcontains (hay needle : String) : Bool := isInfixL needle.data hay.data

/-- Models `QString::contains(needle, Qt::CaseInsensitive)`. -/
def qcontainsCI (hay needle : String) : Bool := qcontains (lowerStr hay) (lowerStr needle)

/-- Lexicographic comparison of character lists by code point; models the
code-unit comparison behind `QString::operator<`. -/
def qltL : List Char → List Char → Bool
  | [], [] => false
  | [], _ :: _ => true
  | _ :: _, [] => false
  | a :: as, b :: bs => if a < b then true else if b < a then false else qltL as bs

/-- Models `QString::operator<` (lexicographic by code unit). -/
def qstrLt (a b : String) : Bool := qltL a.data b.data

/-- The identifiers of `ReleaseArchitecture::Id` (releasemanager.h, enum Id). -/
inductive ArchId
  | X86_64
  | X86
  | ARM
  | AARCH64
  | MIPSEL_arch
  | RISCV64
  | E2K
  | PPC64LE
  | UNKNOWN
deriving DecidableEq

/-- Models `ReleaseArchitecture::index()` (`this - m_all`): declaration order. -/
def archIndex : ArchId → Nat
  | .X86_64 => 0
  | .X86 => 1
  | .ARM => 2
  | .AARCH64 => 3
  | .MIPSEL_arch => 4
  | .RISCV64 => 5
  | .E2K => 6
  | .PPC64LE => 7
  | .UNKNOWN => 8

/-- The abbreviation lists of `ReleaseArchitecture::m_all` (releasemanager.cpp:1110-1120). -/
def archAbbrevs : ArchId → List String
  | .X86_64 => ["x86-64"]
  | .X86 => ["x86", "i386", "i586", "i686"]
  | .ARM => ["armv7hl", "armhfp", "armh"]
  | .AARCH64 => ["aarch64"]
  | .MIPSEL_arch => ["mipsel"]
  | .RISCV64 => ["riscv", "riscv64"]
  | .E2K => ["e2k"]
  | .PPC64LE => ["ppc64le"]
  | .UNKNOWN => ["", "unknown"]

/-- The registry in declaration order (the iteration order of the `m_all` array). -/
def archList : List ArchId :=
  [.X86_64, .X86, .ARM, .AARCH64, .MIPSEL_arch, .RISCV64, .E2K, .PPC64LE, .UNKNOWN]

/-- Models `QStringList::contains(abbr, Qt::CaseInsensitive)`: some element equals
`abbr` up to case. -/
def abbrListContainsCI (l : List String) (abbr : String) : Bool :=
  l.any (fun s => lowerStr s == lowerStr abbr)

/-- Models `ReleaseArchitecture::fromAbbreviation` (releasemanager.cpp:1134-1140):
first registry entry whose abbreviation list contains `abbr` case-insensitively,
`none` standing for the null pointer. -/
def fromAbbreviation (abbr : String) : Option ArchId :=
  archList.find? (fun a => abbrListContainsCI (archAbbrevs a) abbr)

/-- Models `ReleaseArchitecture::isKnown` (releasemanager.cpp:1153-1159). -/
def archIsKnown (abbr : String) : Bool :=
  archList.any (fun a => abbrListContainsCI (archAbbrevs a) abbr)

/-- Models `ReleaseArchitecture::fromFilename` (releasemanager.cpp:1142-1151):
first registry entry one of whose abbreviations occurs in `filename`
case-insensitively, `none` standing for the null pointer. -/
def archFromFilename (filename : String) : Option ArchId :=
  archList.find? (fun a => (archAbbrevs a).any (fun ab => qcontainsCI filename ab))

/-- The identifiers of `ReleaseImageType::Id` (releasemanager.h, enum Id). -/
inductive ImgTypeId
  | ISO
  | TAR
  | TAR_GZ
  | TAR_XZ
  | IMG
  | IMG_GZ
  | IMG_XZ
  | RECOVERY_TAR
  | UNKNOWN
deriving DecidableEq

/-- Drops leading whitespace from a character list (helper for `QString::trimmed`). -/
def dropLeadWs : List Char → List Char
  | [] => []
  | c :: t => if c.isWhitespace then dropLeadWs t else c :: t

/-- Models `QString::trimmed`: strips leading and trailing whitespace. -/
def qtrim (s : String) : String := ⟨(dropLeadWs (dropLeadWs s.data.reverse).reverse)⟩

/-- The change notifications (Qt signals) that the merge engine can emit
(releasemanager.h signal declarations). Each operation below returns the
list of signals it emits, in emission order. -/
inductive Sig
  | statusChanged
  | releaseDateChanged
  | prereleaseChanged
  | urlChanged
  | shaHashChanged
  | sizeChanged
  | variantsChanged
  | selectedVariantChanged
  | versionsChanged
  | selectedVersionChanged
deriving DecidableEq

/-- The values of `ReleaseVersion::Status` (releasemanager.h): declaration
order FINAL, RELEASE_CANDIDATE, BETA, ALPHA. -/
inductive VStatus
  | FINAL
  | RELEASE_CANDIDATE
  | BETA
  | ALPHA
deriving DecidableEq

/-- The underlying C++ enum ordinal of a `ReleaseVersion::Status` value. -/
def statusOrd : VStatus → Nat
  | .FINAL => 0
  | .RELEASE_CANDIDATE => 1
  | .BETA => 2
  | .ALPHA => 3

/-- Models the status-text decoding used on both update paths
(releasemanager.cpp:538 and :686):
`status == "alpha" ? ALPHA : status == "beta" ? BETA : FINAL`. -/
def statusFromString (status : String) : VStatus :=
  if status == "alpha" then .ALPHA else if status == "beta" then .BETA else .FINAL

/-- Models the merge-relevant fields of `ReleaseVariant` (releasemanager.h).
`arch` is `Option ArchId` because the C++ field is a nullable pointer into
the registry array. -/
structure Variant where
  arch : Option ArchId
  imageType : ImgTypeId
  board : String
  url : String
  shaHash : String
  md5 : String
  size : Int
deriving DecidableEq

/-- Models the merge-relevant fields of `ReleaseVersion` (releasemanager.h).
`releaseDate` models `QDateTime` as `Option String`, `none` standing for an
invalid datetime (`QDateTime::isValid()` false). -/
structure RVersion where
  number : String
  status : VStatus
  releaseDate : Option String
  variants : List Variant
  selectedVariant : Int
deriving DecidableEq

/-- Models the merge-relevant fields of `Release` (releasemanager.h). -/
structure RRelease where
  name : String
  displayName : String
  versions : List RVersion
  selectedVersion : Int
deriving DecidableEq

/-- Models `Release::isLocal` (releasemanager.cpp:579-581). -/
def isLocal (r : RRelease) : Bool := r.name == "custom"

/-- Models `ReleaseVariant::updateUrl` (releasemanager.cpp:790-810): merges
`url`, `sha256` and `size` field-by-field, returning the new variant, the
emitted signals, and the `changed` flag. -/
def variantUpdateUrl (v : Variant) (url sha256 : String) (size : Int) :
    Variant × List Sig × Bool :=
  let doUrl : Bool := url != "" && qtrim v.url != qtrim url
  let doSha : Bool := sha256 != "" && qtrim v.shaHash != qtrim sha256
  let doSize : Bool := size != 0 && v.size != size
  let v1 := if doUrl then { v with url := url } else v
  let v2 := if doSha then { v1 with shaHash := sha256 } else v1
  let v3 := if doSize then { v2 with size := size } else v2
  (v3,
   (if doUrl then [Sig.urlChanged] else []) ++
     (if doSha then [Sig.shaHashChanged] else []) ++
     (if doSize then [Sig.sizeChanged] else []),
   doUrl || doSha || doSize)

/-- Models the variant-lookup loop of `ReleaseVersion::updateUrl`
(releasemanager.cpp:703-706): the first variant matching `(arch, board)` is
updated in place; `none` when no variant matches. -/
def updateFirstVariant (archP : Option ArchId) (board url sha256 : String) (size : Int) :
    List Variant → Option (List Variant × List Sig × Bool)
  | [] => none
  | v :: rest =>
    if v.arch == archP && v.board == board then
      let res := variantUpdateUrl v url sha256 size
      some (res.1 :: rest, res.2.1, res.2.2)
    else
      match updateFirstVariant archP board url sha256 size rest with
      | some res => some (v :: res.1, res.2.1, res.2.2)
      | none => none

/-- The numeric value of a registry pointer: null is 0, `&m_all[i]` orders as
`i + 1` (helper for the pointer comparison at releasemanager.cpp:711). -/
def archPtrVal : Option ArchId → Nat
  | none => 0
  | some a => archIndex a + 1

/-- Models the insertion-position loop of `ReleaseVersion::updateUrl`
(releasemanager.cpp:709-714): count of leading variants whose architecture
pointer does not rank after the new one. -/
def variantInsertOrder (archP : Option ArchId) : List Variant → Nat
  | [] => 0
  | v :: rest =>
    if archPtrVal archP < archPtrVal v.arch then 0
    else variantInsertOrder archP rest + 1

/-- Models `QList::insert(i, value)`. -/
def linsert {α : Type} : List α → Nat → α → List α
  | xs, 0, a => a :: xs
  | [], _ + 1, a => [a]
  | x :: xs, n + 1, a => x :: linsert xs n a

/-- Models `ReleaseVersion::updateUrl` (releasemanager.cpp:684-717): status
regression guard, status/date merge, then variant merge or insertion. -/
def versionUpdateUrl (v : RVersion) (status : String) (releaseDate : Option String)
    (architecture : String) (imageType : ImgTypeId) (board url sha256 md5 : String)
    (size : Int) : RVersion × List Sig × Bool :=
  let s := statusFromString status
  if statusOrd s ≤ statusOrd v.status then
    let statusSigs :=
      Sig.statusChanged :: (if s = VStatus.FINAL then [Sig.prereleaseChanged] else [])
    let v1 := { v with status := s }
    let dateHit : Bool := v1.releaseDate != releaseDate && releaseDate.isSome
    let v2 := if dateHit then { v1 with releaseDate := releaseDate } else v1
    let dateSigs := if dateHit then [Sig.releaseDateChanged] else []
    match updateFirstVariant (fromAbbreviation architecture) board url sha256 size v2.variants with
    | some res => ({ v2 with variants := res.1 }, statusSigs ++ dateSigs ++ res.2.1, res.2.2)
    | none =>
      let order := variantInsertOrder (fromAbbreviation architecture) v2.variants
      let nv : Variant :=
        { arch := fromAbbreviation architecture, imageType := imageType, board := board,
          url := url, shaHash := sha256, md5 := md5, size := size }
      ({ v2 with variants := linsert v2.variants order nv }, statusSigs ++ dateSigs, true)
  else
    (v, [], false)

/-- Models the insertion-point search of `Release::addVersion`
(releasemanager.cpp:614-615): index of the first stored version whose number
is lexicographically below the new one, `none` when no such version exists. -/
def findLtIdx (number : String) : List RVersion → Option Nat
  | [] => none
  | v :: rest =>
    if qstrLt v.number number then some 0
    else (findLtIdx number rest).map (· + 1)

/-- Models `Release::addVersion` (releasemanager.cpp:613-628): insert before
the first smaller version number (appending otherwise), bumping the selected
index when a non-FINAL version lands at or before it. -/
def addVersion (r : RRelease) (ver : RVersion) : RRelease × List Sig :=
  match findLtIdx ver.number r.versions with
  | some i =>
    let sel :=
      if ver.status ≠ VStatus.FINAL ∧ (i : Int) ≤ r.selectedVersion then
        r.selectedVersion + 1
      else r.selectedVersion
    ({ r with versions := linsert r.versions i ver, selectedVersion := sel },
     [Sig.versionsChanged, Sig.selectedVersionChanged])
  | none =>
    ({ r with versions := r.versions ++ [ver] },
     [Sig.versionsChanged, Sig.selectedVersionChanged])

/-- Models the eviction scan of `Release::updateUrl` (releasemanager.cpp:546-553):
walks the versions tracking the strictly smallest number seen so far, starting
from the sentinel `"0"`; returns the index of the elected version (`oldVer`),
`none` when the scan never fires. -/
def evictScan : List RVersion → Nat → String → Option Nat → Option Nat
  | [], _, _, old => old
  | v :: rest, i, min, old =>
    if qstrLt v.number min then evictScan rest (i + 1) v.number (some i)
    else evictScan rest (i + 1) min old

/-- Models `Release::removeVersion` (releasemanager.cpp:630-642), the argument
being the index of the version object to remove (`none` models the null
pointer, on which the function returns without doing anything). -/
def removeVersion (r : RRelease) (oldVer : Option Nat) : RRelease × List Sig :=
  match oldVer with
  | none => (r, [])
  | some idx =>
    let selHit : Bool := r.selectedVersion == (idx : Int)
    ({ r with versions := r.versions.eraseIdx idx,
              selectedVersion := if selHit then 0 else r.selectedVersion },
     (if selHit then [Sig.selectedVersionChanged] else []) ++ [Sig.versionsChanged])

/-- Count of FINAL versions (the `finalVersions` tally of
`Release::updateUrl`, releasemanager.cpp:531-537). -/
def countFinal : List RVersion → Nat
  | [] => 0
  | v :: rest => (if v.status = VStatus.FINAL then 1 else 0) + countFinal rest

/-- Models the version-lookup loop of `Release::updateUrl`
(releasemanager.cpp:532-535): the first version with the given number is
updated in place; `none` when no version matches. -/
def updateFirstVersion (version status : String) (releaseDate : Option String)
    (architecture : String) (imageType : ImgTypeId) (board url sha256 md5 : String)
    (size : Int) : List RVersion → Option (List RVersion × List Sig × Bool)
  | [] => none
  | v :: rest =>
    if v.number == version then
      let res := versionUpdateUrl v status releaseDate architecture imageType board url sha256 md5 size
      some (res.1 :: rest, res.2.1, res.2.2)
    else
      match updateFirstVersion version status releaseDate architecture imageType board url sha256 md5 size rest with
      | some res => some (v :: res.1, res.2.1, res.2.2)
      | none => none

/-- Models `Release::updateUrl` (releasemanager.cpp:530-557): delegate to a
matching version, otherwise create a version holding one variant, insert it,
and run the final-version retention scan. The `prereleaseChanged` before the
insertion models the emission in the `ReleaseVersion` constructor
(releasemanager.cpp:665-666); the `variantsChanged`/`selectedVariantChanged`
model `ReleaseVersion::addVariant` (releasemanager.cpp:761-766). -/
def releaseUpdateUrl (r : RRelease) (version status : String) (releaseDate : Option String)
    (architecture : String) (imageType : ImgTypeId) (board url sha256 md5 : String)
    (size : Int) : RRelease × List Sig × Bool :=
  match updateFirstVersion version status releaseDate architecture imageType board url sha256 md5 size r.versions with
  | some res => ({ r with versions := res.1 }, res.2.1, res.2.2)
  | none =>
    let finals := countFinal r.versions
    let s := statusFromString status
    let ctorSigs := if s ≠ VStatus.FINAL then [Sig.prereleaseChanged] else []
    let nv : Variant :=
      { arch := fromAbbreviation architecture, imageType := imageType, board := board,
        url := url, shaHash := sha256, md5 := md5, size := size }
    let ver : RVersion :=
      { number := version, status := s, releaseDate := releaseDate,
        variants := [nv], selectedVariant := 0 }
    let addVariantSigs := [Sig.variantsChanged, Sig.selectedVariantChanged]
    let add := addVersion r ver
    let finals := finals + (if s = VStatus.FINAL then 1 else 0)
    if finals > 2 then
      let rem := removeVersion add.1 (evictScan add.1.versions 0 "0" none)
      (rem.1, ctorSigs ++ addVariantSigs ++ add.2 ++ rem.2, true)
    else
      (add.1, ctorSigs ++ addVariantSigs ++ add.2, true)

/-- Models the release-lookup loop of `ReleaseManager::updateUrl`
(releasemanager.cpp:206-210): the first release whose lower-cased name
contains the raw key (case-sensitively) receives the update. -/
def updateFirstRelease (name version status : String) (releaseDate : Option String)
    (architecture : String) (imageType : ImgTypeId) (board url sha256 md5 : String)
    (size : Int) : List RRelease → Option (List RRelease × List Sig × Bool)
  | [] => none
  | r :: rest =>
    if qcontains (lowerStr r.name) name then
      let res := releaseUpdateUrl r version status releaseDate architecture imageType board url sha256 md5 size
      some (res.1 :: rest, res.2.1, res.2.2)
    else
      match updateFirstRelease name version status releaseDate architecture imageType board url sha256 md5 size rest with
      | some res => some (r :: res.1, res.2.1, res.2.2)
      | none => none

/-- Models `ReleaseManager::updateUrl` (releasemanager.cpp:197-212): the public
merge operation; rejects unknown architectures and unknown image types, then
routes the record to the first matching release. -/
def managerUpdateUrl (rs : List RRelease) (name version status : String)
    (releaseDate : Option String) (architecture : String) (imageType : ImgTypeId)
    (board url sha256 md5 : String) (size : Int) : List RRelease × List Sig × Bool :=
  if !archIsKnown architecture then (rs, [], false)
  else if imageType == ImgTypeId.UNKNOWN then (rs, [], false)
  else
    match updateFirstRelease name version status releaseDate architecture imageType board url sha256 md5 size rs with
    | some res => res
    | none => (rs, [], false)

/-- Models `ReleaseVersion::setSelectedVariantIndex` (releasemanager.cpp:746-751).
Note the guard reads the stored index `m_selectedVariant`, not the argument. -/
def setSelectedVariantIndex (v : RVersion) (o : Int) : RVersion × List Sig :=
  if v.selectedVariant ≠ o ∧ 0 ≤ v.selectedVariant ∧
      v.selectedVariant < (v.variants.length : Int) then
    ({ v with selectedVariant := o }, [Sig.selectedVariantChanged])
  else (v, [])

/-- Models `Release::setSelectedVersionIndex` (releasemanager.cpp:654-659).
Note the guard reads the stored index `m_selectedVersion`, not the argument. -/
def setSelectedVersionIndex (r : RRelease) (o : Int) : RRelease × List Sig :=
  if r.selectedVersion ≠ o ∧ 0 ≤ r.selectedVersion ∧
      r.selectedVersion < (r.versions.length : Int) then
    ({ r with selectedVersion := o }, [Sig.selectedVersionChanged])
  else (r, [])

/-- Models `variant->arch()->index()` as used by the filter
(releasemanager.cpp:136); the architecture pointer is non-null in every state
the program builds, `-1` standing in for the undefined null dereference. -/
def variantArchIndex (v : Variant) : Int :=
  match v.arch with
  | some a => (archIndex a : Int)
  | none => -1

/-- `FRONTPAGE_ROW_COUNT` (releasemanager.cpp:33). -/
def FRONTPAGE_ROW_COUNT : Nat := 3

/-- Models `ReleaseManager::filterAcceptsRow` (releasemanager.cpp:126-146). -/
def filterAcceptsRow (rs : List RRelease) (frontPage : Bool) (filterArchitecture : Int)
    (filterText : String) (row : Nat) : Bool :=
  if frontPage then decide (row < FRONTPAGE_ROW_COUNT)
  else
    match rs.get? row with
    | none => false
    | some r =>
      let containsArch :=
        r.versions.any (fun v => v.variants.any (fun va => variantArchIndex va == filterArchitecture))
      isLocal r || (containsArch && qcontainsCI r.displayName filterText)

/-! Concrete catalog fixtures used by the witnesses and counterexamples. -/

/-- A PC x86-64 ISO variant with the given url. -/
def pcVariant (u : String) : Variant :=
  { arch := some ArchId.X86_64, imageType := ImgTypeId.ISO, board := "PC",
    url := u, shaHash := "", md5 := "", size := 0 }

/-- A FINAL version numbered `n` holding one PC variant. -/
def finalVersion (n u : String) : RVersion :=
  { number := n, status := VStatus.FINAL, releaseDate := none,
    variants := [pcVariant u], selectedVariant := 0 }

/-- A release already holding two FINAL versions, "39" and "38". -/
def relTwoFinal : RRelease :=
  { name := "alt-workstation", displayName := "ALT Workstation",
    versions := [finalVersion "39" "http://a39", finalVersion "38" "http://a38"],
    selectedVersion := 0 }

/-- A release holding one BETA version "9". -/
def relBeta : RRelease :=
  { name := "alt-workstation", displayName := "ALT Workstation",
    versions := [{ number := "9", status := VStatus.BETA, releaseDate := none,
                   variants := [pcVariant "http://a9"], selectedVariant := 0 }],
    selectedVersion := 0 }

/-- A FINAL version "9" whose PC variant has a sha256 hash and a size. -/
def verWithSha : RVersion :=
  { number := "9", status := VStatus.FINAL, releaseDate := none,
    variants := [{ pcVariant "http://a9" with shaHash := "oldsha", size := 5 }],
    selectedVariant := 0 }

/-- A release whose only variant is aarch64. -/
def relAarch : RRelease :=
  { name := "alt-kworkstation", displayName := "ALT KWorkstation",
    versions := [{ number := "9", status := VStatus.FINAL, releaseDate := none,
                   variants := [{ arch := some ArchId.AARCH64, imageType := ImgTypeId.ISO,
                                  board := "PC", url := "u", shaHash := "", md5 := "",
                                  size := 0 }],
                   selectedVariant := 0 }],
    selectedVersion := 0 }

/-- The user-local "custom" release. -/
def relCustom : RRelease :=
  { name := "custom", displayName := "Custom image", versions := [], selectedVersion := 0 }

/-- A release with no versions yet. -/
def relEmpty : RRelease :=
  { name := "alt-server", displayName := "ALT Server", versions := [], selectedVersion := 0 }

/-- A bare FINAL version with no variants, for the ordering example. -/
def bareVersion (n : String) : RVersion :=
  { number := n, status := VStatus.FINAL, releaseDate := none, variants := [],
    selectedVariant := 0 }

/-! Basic lemmas about the string helpers. -/

/-- The empty needle is contained in every haystack. -/
theorem isInfixL_nil (l : List Char) : isInfixL [] l = true := by
  cases l <;> simp [isInfixL, startsWithL]

/-- `qltL` is asymmetric. -/
theorem qltL_asymm : ∀ a b : List Char, qltL a b = true → qltL b a = false := by
  intro a
  induction a with
  | nil => intro b h; cases b with
    | nil => simp [qltL] at h
    | cons c cs => simp [qltL]
  | cons x xs ih =>
    intro b h
    cases b with
    | nil => simp [qltL] at h
    | cons c cs =>
      by_cases hxc : x < c
      · have hcx : ¬ c < x := lt_asymm hxc
        simp [qltL, hcx, hxc]
      · by_cases hcx : c < x
        · simp [qltL, hxc, hcx] at h
        · simp [qltL, hxc, hcx] at h ⊢
          exact ih cs h

/-- `qstrLt` is asymmetric. -/
theorem qstrLt_asymm (a b : String) (h : qstrLt a b = true) : qstrLt b a = false :=
  qltL_asymm a.data b.data h

example : qtrim "  ab c  " = "ab c" := by decide
example : qtrim "" = "" := by decide
example : statusFromString "0" = VStatus.FINAL := by decide
example : lowerStr "Alt-WorkStation" = "alt-workstation" := by decide
example : qcontains "alt-workstation" "work" = true := by decide
example : qcontains "alt-workstation" "WORK" = false := by decide
example : qcontainsCI "alt-workstation" "WORK" = true := by decide
example : qstrLt "39" "40" = true := by decide
example : qstrLt "38" "0" = false := by decide
example : qstrLt "9" "40" = false := by decide
example : fromAbbreviation "" = some ArchId.UNKNOWN := by decide
example : fromAbbreviation "AARCH64" = some ArchId.AARCH64 := by decide
example : archIsKnown "bogus" = false := by decide
example : archFromFilename "alt-9.2-aarch64.iso" = some ArchId.AARCH64 := by decide

/-! Claim theorems. -/

/-- C1: merging a new FINAL version "40" into a release already holding the two
FINAL versions "39" and "38" does NOT evict anything: the eviction scan starts
from the sentinel `"0"`, every digit-led number string is lexicographically
above `"0"`, so `oldVer` stays null and all three FINAL versions remain. This
contradicts the claimed retention policy (exactly 2 FINAL versions, smallest
number evicted). -/
theorem retention_eviction_never_fires :
    (releaseUpdateUrl relTwoFinal "40" "0" none "x86-64" ImgTypeId.ISO "PC" "http://a40" "" "" 0).1.versions.map RVersion.number = ["40", "39", "38"] ∧
    countFinal (releaseUpdateUrl relTwoFinal "40" "0" none "x86-64" ImgTypeId.ISO "PC" "http://a40" "" "" 0).1.versions = 3 ∧
    (releaseUpdateUrl relTwoFinal "40" "0" none "x86-64" ImgTypeId.ISO "PC" "http://a40" "" "" 0).2.2 = true := by
  decide

/-- C7: the selection setters bounds-check the stored index instead of the
argument, so `setSelectedVariantIndex 5` on a version with a single variant
stores index 5 (no live variant at 5 although the list is non-empty), and
likewise `setSelectedVersionIndex 7` on a release with two versions stores 7.
This contradicts the claimed selection-index invariant. -/
theorem selection_setter_accepts_out_of_range :
    (setSelectedVariantIndex (finalVersion "39" "http://a39") 5).1.selectedVariant = 5 ∧
    (setSelectedVariantIndex (finalVersion "39" "http://a39") 5).1.variants.length = 1 ∧
    (setSelectedVersionIndex relTwoFinal 7).1.selectedVersion = 7 ∧
    (setSelectedVersionIndex relTwoFinal 7).1.versions.length = 2 := by
  decide

/-- A version-scan over `pre ++ v :: post` where nothing in `pre` matches and
the matching `v` rejects the update is a no-op returning false. -/
theorem updateFirstVersion_reject (version status : String) (rd : Option String)
    (architecture : String) (it : ImgTypeId) (board url sha256 md5 : String) (size : Int) :
    ∀ (pre : List RVersion) (v : RVersion) (post : List RVersion),
    (∀ u ∈ pre, (u.number == version) = false) →
    (v.number == version) = true →
    versionUpdateUrl v status rd architecture it board url sha256 md5 size = (v, [], false) →
    updateFirstVersion version status rd architecture it board url sha256 md5 size (pre ++ v :: post) =
      some (pre ++ v :: post, [], false) := by
  intro pre
  induction pre with
  | nil =>
    intro v post _ hv hres
    simp [updateFirstVersion, hv, hres]
  | cons u us ih =>
    intro v post hpre hv hres
    have hu : (u.number == version) = false := hpre u (by simp)
    have hrest := ih v post (fun x hx => hpre x (by simp [hx])) hv hres
    simp [updateFirstVersion, hu, hrest]

/-- C3: once a version's status is FINAL, an update whose status text decodes
to anything less final (in particular "alpha") is rejected atomically: the
version-level merge returns the version unchanged, emits nothing and returns
false, and so does the release-level merge that reaches that version. -/
theorem status_monotonic_rejection :
    ∀ (v : RVersion) (status : String) (rd : Option String) (architecture : String)
      (it : ImgTypeId) (board url sha256 md5 : String) (size : Int),
    v.status = VStatus.FINAL →
    statusFromString status ≠ VStatus.FINAL →
    (versionUpdateUrl v status rd architecture it board url sha256 md5 size = (v, [], false) ∧
     ∀ (r : RRelease) (pre post : List RVersion), r.versions = pre ++ v :: post →
       (∀ u ∈ pre, u.number ≠ v.number) →
       releaseUpdateUrl r v.number status rd architecture it board url sha256 md5 size =
         (r, [], false)) := by
  intro v status rd architecture it board url sha256 md5 size hfin hreg
  have hrej : versionUpdateUrl v status rd architecture it board url sha256 md5 size = (v, [], false) := by
    unfold versionUpdateUrl
    have hlt : ¬ statusOrd (statusFromString status) ≤ statusOrd v.status := by
      rw [hfin]
      cases h : statusFromString status <;> simp_all [statusOrd]
    simp [hlt]
  refine ⟨hrej, ?_⟩
  intro r pre post hr hpre
  have hscan := updateFirstVersion_reject v.number status rd architecture it board url sha256 md5 size
      pre v post (fun u hu => by simpa using hpre u hu) (by simp) hrej
  unfold releaseUpdateUrl
  rw [hr, hscan]
  rw [← hr]

/-- C3 witness: a FINAL version "9" rejects an "alpha" update unchanged. -/
theorem status_monotonic_rejection_witness :
    versionUpdateUrl verWithSha "alpha" none "x86-64" ImgTypeId.ISO "PC" "http://a9" "" "" 0 =
      (verWithSha, [], false) :=
  (status_monotonic_rejection verWithSha "alpha" none "x86-64" ImgTypeId.ISO "PC" "http://a9" "" "" 0
    (by decide) (by decide)).1

/-- Direct recursive form of the insertion performed by `Release::addVersion`:
insert before the first element with a smaller number, appending otherwise. -/
def insSorted (ver : RVersion) : List RVersion → List RVersion
  | [] => [ver]
  | v :: rest =>
    if qstrLt v.number ver.number then ver :: v :: rest else v :: insSorted ver rest

/-- The `findLtIdx`/`linsert` combination used by `addVersion` computes `insSorted`. -/
theorem insMatch_eq (ver : RVersion) :
    ∀ vs : List RVersion,
    (match findLtIdx ver.number vs with
     | some i => linsert vs i ver
     | none => vs ++ [ver]) = insSorted ver vs := by
  intro vs
  induction vs with
  | nil => simp [findLtIdx, insSorted]
  | cons v rest ih =>
    by_cases h : qstrLt v.number ver.number = true
    · simp [findLtIdx, h, insSorted, linsert]
    · have h2 : qstrLt v.number ver.number = false := by simpa using h
      cases hfi : findLtIdx ver.number rest with
      | none =>
        simp only [hfi] at ih
        simp [findLtIdx, h2, hfi, insSorted, ih]
      | some j =>
        simp only [hfi] at ih
        simp [findLtIdx, h2, hfi, insSorted, linsert, ih]

/-- The version list produced by `addVersion` is the sorted insertion. -/
theorem addVersion_versions (r : RRelease) (ver : RVersion) :
    (addVersion r ver).1.versions = insSorted ver r.versions := by
  have key := insMatch_eq ver r.versions
  unfold addVersion
  cases h : findLtIdx ver.number r.versions with
  | none => simp only [h] at key ⊢; simpa using key
  | some i => simp only [h] at key ⊢; simpa using key

/-- Descending (non-ascending) order of the stored version numbers under the
`QString` comparison. -/
def descByNumber (vs : List RVersion) : Prop :=
  List.Chain' (fun a b => qstrLt a.number b.number = false) vs

instance (vs : List RVersion) : Decidable (descByNumber vs) :=
  inferInstanceAs (Decidable (List.Chain' _ vs))

/-- Sorted insertion preserves descending order. -/
theorem insSorted_sorted (ver : RVersion) :
    ∀ vs : List RVersion, descByNumber vs → descByNumber (insSorted ver vs) := by
  intro vs
  induction vs with
  | nil => intro _; simp [insSorted, descByNumber]
  | cons v rest ih =>
    intro hs
    have htail : descByNumber rest := hs.tail
    by_cases h : qstrLt v.number ver.number = true
    · simp only [insSorted, h, if_true]
      exact List.chain'_cons.mpr ⟨qstrLt_asymm _ _ h, hs⟩
    · have h2 : qstrLt v.number ver.number = false := by simpa using h
      simp only [insSorted, h2, Bool.false_eq_true, if_false]
      refine List.chain'_cons'.mpr ⟨?_, ih htail⟩
      intro b hb
      cases rest with
      | nil => simp [insSorted] at hb; subst hb; exact h2
      | cons w rest2 =>
        by_cases hw : qstrLt w.number ver.number = true
        · simp [insSorted, hw] at hb; subst hb; exact h2
        · have hw2 : qstrLt w.number ver.number = false := by simpa using hw
          simp [insSorted, hw2] at hb
          subst hb
          exact (List.chain'_cons.mp hs).1

/-- C5: inserting versions "41", "39", "40" in that arrival order into an empty
release yields the stored order ["41", "40", "39"], and `addVersion` preserves
descending string order of the version numbers in general. -/
theorem version_insert_ordering :
    ((addVersion ((addVersion ((addVersion relEmpty (bareVersion "41")).1) (bareVersion "39")).1)
        (bareVersion "40")).1.versions.map RVersion.number = ["41", "40", "39"]) ∧
    (∀ (r : RRelease) (ver : RVersion),
      descByNumber r.versions → descByNumber ((addVersion r ver).1.versions)) := by
  refine ⟨by decide, ?_⟩
  intro r ver h
  rw [addVersion_versions]
  exact insSorted_sorted ver r.versions h

/-- C5 witness: inserting "40" into the (sorted) two-final release keeps the
version list in descending order. -/
theorem version_insert_ordering_witness :
    descByNumber ((addVersion relTwoFinal (bareVersion "40")).1.versions) :=
  version_insert_ordering.2 relTwoFinal (bareVersion "40")
    (List.chain'_pair.mpr (by decide))

/-- C8: in front-page mode the filter accepts exactly the first 3 catalog rows
whatever the other filters are; otherwise it accepts a release iff it is local
or some variant across all its versions carries the filtered architecture and
the display name contains the text filter case-insensitively. Concretely, a
release whose only variant is aarch64 is rejected under the x86-64 filter,
accepted under the AArch64 filter, and the local "custom" release is always
accepted. -/
theorem filter_correctness :
    (∀ (rs : List RRelease) (fa : Int) (ft : String) (row : Nat),
      filterAcceptsRow rs true fa ft row = true ↔ row < FRONTPAGE_ROW_COUNT) ∧
    (∀ (rs : List RRelease) (fa : Int) (ft : String) (row : Nat) (r : RRelease),
      rs.get? row = some r →
      (filterAcceptsRow rs false fa ft row = true ↔
        (r.name = "custom" ∨
          ((∃ v ∈ r.versions, ∃ va ∈ v.variants, variantArchIndex va = fa) ∧
            qcontainsCI r.displayName ft = true)))) ∧
    filterAcceptsRow [relAarch, relCustom] false ((archIndex ArchId.X86_64 : Nat) : Int) "" 0 = false ∧
    filterAcceptsRow [relAarch, relCustom] false ((archIndex ArchId.AARCH64 : Nat) : Int) "" 0 = true ∧
    filterAcceptsRow [relAarch, relCustom] false ((archIndex ArchId.X86_64 : Nat) : Int) "" 1 = true ∧
    filterAcceptsRow [relAarch, relCustom] true ((archIndex ArchId.X86_64 : Nat) : Int) "zz" 2 = true ∧
    filterAcceptsRow [relAarch, relCustom] true ((archIndex ArchId.X86_64 : Nat) : Int) "" 3 = false := by
  refine ⟨?_, ?_, by decide, by decide, by decide, by decide, by decide⟩
  · intro rs fa ft row
    simp [filterAcceptsRow]
  · intro rs fa ft row r h
    rw [List.get?_eq_getElem?] at h
    simp [filterAcceptsRow, h, isLocal, List.any_eq_true, beq_iff_eq]

/-- C8 witness: the aarch64-only release is accepted at row 0 under the
AArch64 architecture filter and empty text filter. -/
theorem filter_correctness_witness :
    filterAcceptsRow [relAarch] false ((archIndex ArchId.AARCH64 : Nat) : Int) "" 0 = true :=
  (filter_correctness.2.1 [relAarch] ((archIndex ArchId.AARCH64 : Nat) : Int) "" 0 relAarch rfl).mpr
    (by right
        constructor
        · exact ⟨relAarch.versions.head (by decide), by decide, by decide⟩
        · decide)

/-- C10: the UNKNOWN registry entry lists the empty abbreviation, so the
empty string and "unknown" are "known" architectures, `fromAbbreviation`
maps them to UNKNOWN, `fromFilename` never returns the null pointer, and the
merge precheck accepts records with an empty or "unknown" architecture,
merging them under the UNKNOWN architecture instead of dropping them. -/
theorem unknown_arch_registry_edge :
    archIsKnown "" = true ∧ archIsKnown "unknown" = true ∧
    fromAbbreviation "" = some ArchId.UNKNOWN ∧
    fromAbbreviation "unknown" = some ArchId.UNKNOWN ∧
    (∀ filename : String, (archFromFilename filename).isSome = true) ∧
    (managerUpdateUrl [relEmpty] "server" "9" "0" none "" ImgTypeId.ISO "PC" "http://u" "" "" 0).2.2 = true ∧
    ((managerUpdateUrl [relEmpty] "server" "9" "0" none "" ImgTypeId.ISO "PC" "http://u" "" "" 0).1.map
        (fun r => r.versions.map (fun v => v.variants.map Variant.arch))) = [[[some ArchId.UNKNOWN]]] ∧
    (managerUpdateUrl [relEmpty] "server" "9" "0" none "unknown" ImgTypeId.ISO "PC" "http://u" "" "" 0).2.2 = true := by
  refine ⟨by decide, by decide, by decide, by decide, ?_, by decide, by decide, by decide⟩
  intro filename
  rw [archFromFilename, List.find?_isSome]
  refine ⟨ArchId.UNKNOWN, by decide, ?_⟩
  have hempty : qcontainsCI filename "" = true := by
    have : (lowerStr "").data = [] := by decide
    rw [qcontainsCI, qcontains, this]
    exact isInfixL_nil (lowerStr filename).data
  simp [archAbbrevs, hempty]

/-- C6 counterexample: the key "WORK" is a case-insensitive substring of the
release name "alt-workstation", yet the merge treats it as no match (returns
false and mutates nothing), while the lower-case key "work" matches and
mutates. The matching lowercases only the release name, not the key. -/
theorem release_targeting_counterexample :
    qcontainsCI relTwoFinal.name "WORK" = true ∧
    managerUpdateUrl [relTwoFinal] "WORK" "9" "0" none "x86-64" ImgTypeId.ISO "PC" "http://a9" "" "" 0 =
      ([relTwoFinal], [], false) ∧
    (managerUpdateUrl [relTwoFinal] "work" "9" "0" none "x86-64" ImgTypeId.ISO "PC" "http://a9" "" "" 0).2.2 = true := by
  decide

/-- The release-scan returns `none` when no release's lower-cased name
contains the raw key. -/
theorem updateFirstRelease_none (name version status : String) (rd : Option String)
    (architecture : String) (it : ImgTypeId) (board url sha256 md5 : String) (size : Int) :
    ∀ rs : List RRelease,
    (∀ r ∈ rs, qcontains (lowerStr r.name) name = false) →
    updateFirstRelease name version status rd architecture it board url sha256 md5 size rs = none := by
  intro rs
  induction rs with
  | nil => intro _; rfl
  | cons r rest ih =>
    intro h
    have hr : qcontains (lowerStr r.name) name = false := h r (by simp)
    have hrest := ih (fun x hx => h x (by simp [hx]))
    simp [updateFirstRelease, hr, hrest]

/-- The release-scan applies the release-level merge to the first release
whose lower-cased name contains the raw key. -/
theorem updateFirstRelease_found (name version status : String) (rd : Option String)
    (architecture : String) (it : ImgTypeId) (board url sha256 md5 : String) (size : Int) :
    ∀ (pre : List RRelease) (r : RRelease) (post : List RRelease),
    (∀ x ∈ pre, qcontains (lowerStr x.name) name = false) →
    qcontains (lowerStr r.name) name = true →
    updateFirstRelease name version status rd architecture it board url sha256 md5 size (pre ++ r :: post) =
      some (pre ++ (releaseUpdateUrl r version status rd architecture it board url sha256 md5 size).1 :: post,
            (releaseUpdateUrl r version status rd architecture it board url sha256 md5 size).2.1,
            (releaseUpdateUrl r version status rd architecture it board url sha256 md5 size).2.2) := by
  intro pre
  induction pre with
  | nil =>
    intro r post _ hr
    simp [updateFirstRelease, hr]
  | cons x xs ih =>
    intro r post hpre hr
    have hx : qcontains (lowerStr x.name) name = false := hpre x (by simp)
    have hrest := ih r post (fun y hy => hpre y (by simp [hy])) hr
    simp [updateFirstRelease, hx, hrest]

/-- C6 amended: the target release is located by a case-sensitive substring
match of the raw key against the lower-cased release name (only the release
name's letter case is ignored, not the key's); the first match in catalog
order receives the update, and a key matching no release under this rule
returns false and mutates nothing. -/
theorem release_targeting_amended :
    ∀ (rs : List RRelease) (name version status : String) (rd : Option String)
      (architecture : String) (it : ImgTypeId) (board url sha256 md5 : String) (size : Int),
    ((∀ r ∈ rs, qcontains (lowerStr r.name) name = false) →
      managerUpdateUrl rs name version status rd architecture it board url sha256 md5 size =
        (rs, [], false)) ∧
    (archIsKnown architecture = true → it ≠ ImgTypeId.UNKNOWN →
      ∀ (pre : List RRelease) (r : RRelease) (post : List RRelease),
      rs = pre ++ r :: post →
      (∀ x ∈ pre, qcontains (lowerStr x.name) name = false) →
      qcontains (lowerStr r.name) name = true →
      managerUpdateUrl rs name version status rd architecture it board url sha256 md5 size =
        (pre ++ (releaseUpdateUrl r version status rd architecture it board url sha256 md5 size).1 :: post,
         (releaseUpdateUrl r version status rd architecture it board url sha256 md5 size).2.1,
         (releaseUpdateUrl r version status rd architecture it board url sha256 md5 size).2.2)) := by
  intro rs name version status rd architecture it board url sha256 md5 size
  constructor
  · intro hnone
    have hscan := updateFirstRelease_none name version status rd architecture it board url sha256 md5 size rs hnone
    unfold managerUpdateUrl
    cases hk : archIsKnown architecture with
    | false => simp [hk]
    | true =>
      cases hit : (it == ImgTypeId.UNKNOWN) with
      | true => simp [hk, hit]
      | false => simp [hk, hit, hscan]
  · intro hk hit pre r post hrs hpre hr
    have hscan := updateFirstRelease_found name version status rd architecture it board url sha256 md5 size
        pre r post hpre hr
    have hit2 : (it == ImgTypeId.UNKNOWN) = false := by simpa using hit
    unfold managerUpdateUrl
    rw [hrs]
    simp [hk, hit2, hscan]

/-- C6 witness: the lower-case key "work" is routed to the matching release
"alt-workstation" (at the head of the catalog) and performs its merge. -/
theorem release_targeting_amended_witness :
    managerUpdateUrl [relTwoFinal] "work" "9" "0" none "x86-64" ImgTypeId.ISO "PC" "http://a9" "" "" 0 =
      ([(releaseUpdateUrl relTwoFinal "9" "0" none "x86-64" ImgTypeId.ISO "PC" "http://a9" "" "" 0).1],
       (releaseUpdateUrl relTwoFinal "9" "0" none "x86-64" ImgTypeId.ISO "PC" "http://a9" "" "" 0).2.1,
       (releaseUpdateUrl relTwoFinal "9" "0" none "x86-64" ImgTypeId.ISO "PC" "http://a9" "" "" 0).2.2) :=
  (release_targeting_amended [relTwoFinal] "work" "9" "0" none "x86-64" ImgTypeId.ISO "PC" "http://a9" "" "" 0).2
    (by decide) (by decide) [] relTwoFinal [] rfl (by simp) (by decide)

/-- C9 counterexample: a sha-only update to the FINAL version "9" leaves url
and size unchanged but raises three notifications (statusChanged,
prereleaseChanged, shaHashChanged), not exactly one. -/
theorem variant_merge_notification_counterexample :
    (versionUpdateUrl verWithSha "0" none "x86-64" ImgTypeId.ISO "PC" "http://a9" "newsha" "" 5).2.1 =
      [Sig.statusChanged, Sig.prereleaseChanged, Sig.shaHashChanged] ∧
    (versionUpdateUrl verWithSha "0" none "x86-64" ImgTypeId.ISO "PC" "http://a9" "newsha" "" 5).1.variants.map Variant.url =
      ["http://a9"] ∧
    (versionUpdateUrl verWithSha "0" none "x86-64" ImgTypeId.ISO "PC" "http://a9" "newsha" "" 5).1.variants.map Variant.size =
      [5] := by
  decide

/-- The variant-scan applies the variant-level merge to the first variant
matching the (arch, board) pair. -/
theorem updateFirstVariant_found (archP : Option ArchId) (board url sha256 : String) (size : Int) :
    ∀ (pre : List Variant) (w : Variant) (post : List Variant),
    (∀ u ∈ pre, (u.arch == archP && u.board == board) = false) →
    (w.arch == archP && w.board == board) = true →
    updateFirstVariant archP board url sha256 size (pre ++ w :: post) =
      some (pre ++ (variantUpdateUrl w url sha256 size).1 :: post,
            (variantUpdateUrl w url sha256 size).2.1,
            (variantUpdateUrl w url sha256 size).2.2) := by
  intro pre
  induction pre with
  | nil =>
    intro w post _ hw
    simp [updateFirstVariant, hw]
  | cons u us ih =>
    intro w post hpre hw
    have hu : (u.arch == archP && u.board == board) = false := hpre u (by simp)
    have hrest := ih w post (fun x hx => hpre x (by simp [hx])) hw
    simp [updateFirstVariant, hu, hrest]

/-- A variant-level merge whose incoming url is empty or trim-equal, whose
incoming size is zero or equal, and whose incoming sha256 is non-empty and
trim-different, changes exactly the hash field and emits exactly
`shaHashChanged`. -/
theorem variantUpdateUrl_shaOnly (w : Variant) (url sha256 : String) (size : Int)
    (hurl : url = "" ∨ qtrim url = qtrim w.url)
    (hsize : size = 0 ∨ size = w.size)
    (hsha : sha256 ≠ "") (hdiff : qtrim w.shaHash ≠ qtrim sha256) :
    variantUpdateUrl w url sha256 size = ({ w with shaHash := sha256 }, [Sig.shaHashChanged], true) := by
  unfold variantUpdateUrl
  have hdoUrl : (url != "" && qtrim w.url != qtrim url) = false := by
    rcases hurl with h | h
    · simp [h]
    · simp [h]
  have hdoSha : (sha256 != "" && qtrim w.shaHash != qtrim sha256) = true := by
    simp [hsha, hdiff]
  have hdoSize : (size != 0 && w.size != size) = false := by
    rcases hsize with h | h
    · simp [h]
    · simp [h]
  simp [hdoUrl, hdoSha, hdoSize]

/-- C9 amended: for an update that targets an existing (arch, board) variant,
carries the version's current status, a date that is equal or invalid, a url
that is empty or trim-equal, a size that is zero or equal, and a non-empty
trim-different sha256, the variant's url and size stay unchanged and only its
hash changes; the variant level emits exactly `shaHashChanged`, but the whole
update additionally re-emits `statusChanged` (plus `prereleaseChanged` when
the status is FINAL). -/
theorem variant_merge_frame_amended :
    ∀ (v : RVersion) (status : String) (rd : Option String) (architecture : String)
      (it : ImgTypeId) (board url sha256 md5 : String) (size : Int)
      (vs1 : List Variant) (w : Variant) (vs2 : List Variant),
    v.variants = vs1 ++ w :: vs2 →
    (∀ u ∈ vs1, (u.arch == fromAbbreviation architecture && u.board == board) = false) →
    (w.arch == fromAbbreviation architecture && w.board == board) = true →
    statusFromString status = v.status →
    (rd = v.releaseDate ∨ rd = none) →
    (url = "" ∨ qtrim url = qtrim w.url) →
    (size = 0 ∨ size = w.size) →
    sha256 ≠ "" → qtrim w.shaHash ≠ qtrim sha256 →
    versionUpdateUrl v status rd architecture it board url sha256 md5 size =
      ({ v with variants := vs1 ++ { w with shaHash := sha256 } :: vs2 },
       Sig.statusChanged ::
         ((if v.status = VStatus.FINAL then [Sig.prereleaseChanged] else []) ++ [Sig.shaHashChanged]),
       true) := by
  intro v status rd architecture it board url sha256 md5 size vs1 w vs2
  intro hvars hpre hw hstat hrd hurl hsize hsha hdiff
  have hvar := variantUpdateUrl_shaOnly w url sha256 size hurl hsize hsha hdiff
  have hfound := updateFirstVariant_found (fromAbbreviation architecture) board url sha256 size
      vs1 w vs2 hpre hw
  rw [hvar] at hfound
  unfold versionUpdateUrl
  rw [hstat]
  have heta : ({ v with status := v.status } : RVersion) = v := rfl
  have hdate : (v.releaseDate != rd && rd.isSome) = false := by
    rcases hrd with h | h
    · simp [h]
    · simp [h]
  simp only [le_refl, if_true, heta, hdate, Bool.false_eq_true, if_false]
  rw [hvars, hfound]
  simp

/-- C9 witness: the sha-only update on the concrete FINAL version "9". -/
theorem variant_merge_frame_amended_witness :
    versionUpdateUrl verWithSha "0" none "x86-64" ImgTypeId.ISO "PC" "http://a9" "newsha" "" 5 =
      ({ verWithSha with
           variants := [{ pcVariant "http://a9" with shaHash := "newsha", size := 5 }] },
       Sig.statusChanged ::
         ((if verWithSha.status = VStatus.FINAL then [Sig.prereleaseChanged] else []) ++
           [Sig.shaHashChanged]),
       true) :=
  variant_merge_frame_amended verWithSha "0" none "x86-64" ImgTypeId.ISO "PC" "http://a9" "newsha" "" 5
    [] { pcVariant "http://a9" with shaHash := "oldsha", size := 5 } []
    rfl (by simp) (by decide) (by decide) (Or.inr rfl) (Or.inr (by decide)) (Or.inr (by decide))
    (by decide) (by decide)

/-- C2 counterexample: an update that improves the status of version "9" from
BETA to FINAL while leaving every variant field identical mutates the catalog
(the stored status changes) yet returns false. -/
theorem merge_return_counterexample :
    (releaseUpdateUrl relBeta "9" "0" none "x86-64" ImgTypeId.ISO "PC" "http://a9" "" "" 0).2.2 = false ∧
    (releaseUpdateUrl relBeta "9" "0" none "x86-64" ImgTypeId.ISO "PC" "http://a9" "" "" 0).1 ≠ relBeta ∧
    (releaseUpdateUrl relBeta "9" "0" none "x86-64" ImgTypeId.ISO "PC" "http://a9" "" "" 0).1.versions.map RVersion.status =
      [VStatus.FINAL] ∧
    relBeta.versions.map RVersion.status = [VStatus.BETA] := by
  decide

/-- The variant-level merge reports `changed` exactly when the stored variant
is different afterwards. -/
theorem variantUpdateUrl_changed_iff (w : Variant) (url sha256 : String) (size : Int) :
    ((variantUpdateUrl w url sha256 size).2.2 = true ↔
      (variantUpdateUrl w url sha256 size).1 ≠ w) := by
  have hu1 : (url != "" && qtrim w.url != qtrim url) = true → w.url ≠ url := by
    intro h heq
    rw [heq] at h
    simp at h
  have hs1 : (sha256 != "" && qtrim w.shaHash != qtrim sha256) = true → w.shaHash ≠ sha256 := by
    intro h heq
    rw [heq] at h
    simp at h
  have hz1 : (size != 0 && w.size != size) = true → w.size ≠ size := by
    intro h
    simp at h
    exact h.2
  unfold variantUpdateUrl
  by_cases hu : (url != "" && qtrim w.url != qtrim url) = true <;>
    by_cases hs : (sha256 != "" && qtrim w.shaHash != qtrim sha256) = true <;>
      by_cases hz : (size != 0 && w.size != size) = true <;>
        simp only [hu, hs, hz, Bool.or_self, Bool.or_true, Bool.true_or, Bool.false_or,
          Bool.or_false, if_true, if_false, eq_self_iff_true, Bool.false_eq_true,
          Bool.true_eq_false, true_iff, false_iff, not_not, iff_true, not_true, not_false_iff]
  · intro hEq
    exact hu1 hu (congrArg Variant.url hEq).symm
  · intro hEq
    exact hu1 hu (congrArg Variant.url hEq).symm
  · intro hEq
    exact hu1 hu (congrArg Variant.url hEq).symm
  · intro hEq
    exact hu1 hu (congrArg Variant.url hEq).symm
  · intro hEq
    exact hs1 hs (congrArg Variant.shaHash hEq).symm
  · intro hEq
    exact hs1 hs (congrArg Variant.shaHash hEq).symm
  · intro hEq
    exact hz1 hz (congrArg Variant.size hEq).symm

/-- `linsert` grows the list by one. -/
theorem linsert_length {α : Type} : ∀ (xs : List α) (n : Nat) (a : α),
    (linsert xs n a).length = xs.length + 1 := by
  intro xs
  induction xs with
  | nil => intro n a; cases n <;> simp [linsert]
  | cons x rest ih =>
    intro n a
    cases n with
    | zero => simp [linsert]
    | succ m => simp [linsert, ih m a]

/-- The variant-scan reports `changed` exactly when the variant list is
different afterwards. -/
theorem updateFirstVariant_changed_iff (archP : Option ArchId) (board url sha256 : String) (size : Int) :
    ∀ (vs : List Variant) (res : List Variant × List Sig × Bool),
    updateFirstVariant archP board url sha256 size vs = some res →
    (res.2.2 = true ↔ res.1 ≠ vs) := by
  intro vs
  induction vs with
  | nil => intro res h; simp [updateFirstVariant] at h
  | cons w rest ih =>
    intro res h
    by_cases hw : (w.arch == archP && w.board == board) = true
    · simp only [updateFirstVariant, hw, if_true, Option.some.injEq] at h
      subst h
      simpa using variantUpdateUrl_changed_iff w url sha256 size
    · simp only [updateFirstVariant, hw, Bool.false_eq_true, if_false] at h
      cases hrec : updateFirstVariant archP board url sha256 size rest with
      | none => rw [hrec] at h; simp at h
      | some res2 =>
        rw [hrec] at h
        simp only [Option.some.injEq] at h
        subst h
        simpa using ih res2 hrec

/-- The version-level merge reports `changed` exactly when the version's
variant list is different afterwards (status and releaseDate mutations are
not reflected in the return value). -/
theorem versionUpdateUrl_changed_iff (v : RVersion) (status : String) (rd : Option String)
    (architecture : String) (it : ImgTypeId) (board url sha256 md5 : String) (size : Int) :
    ((versionUpdateUrl v status rd architecture it board url sha256 md5 size).2.2 = true ↔
      (versionUpdateUrl v status rd architecture it board url sha256 md5 size).1.variants ≠ v.variants) := by
  unfold versionUpdateUrl
  by_cases hacc : statusOrd (statusFromString status) ≤ statusOrd v.status
  · simp only [hacc, if_true]
    cases hscan : updateFirstVariant (fromAbbreviation architecture) board url sha256 size v.variants with
    | some res =>
      have key := updateFirstVariant_changed_iff (fromAbbreviation architecture) board url sha256 size
        v.variants res hscan
      by_cases hd : (({ v with status := statusFromString status } : RVersion).releaseDate != rd && rd.isSome) = true
      · simp only [hd, if_true, hscan]
        simpa using key
      · simp only [hd, Bool.false_eq_true, if_false, hscan]
        simpa using key
    | none =>
      have key : ∀ n nv, linsert v.variants n nv ≠ v.variants := by
        intro n nv hEq
        have hlen := congrArg List.length hEq
        simp [linsert_length] at hlen
      by_cases hd : (({ v with status := statusFromString status } : RVersion).releaseDate != rd && rd.isSome) = true
      · simp only [hd, if_true, hscan]
        simpa using key _ _
      · simp only [hd, Bool.false_eq_true, if_false, hscan]
        simpa using key _ _
  · simp [hacc]

/-- The version-scan misses exactly when no stored version has the incoming
number. -/
theorem updateFirstVersion_none_iff (version status : String) (rd : Option String)
    (architecture : String) (it : ImgTypeId) (board url sha256 md5 : String) (size : Int) :
    ∀ vs : List RVersion,
    (updateFirstVersion version status rd architecture it board url sha256 md5 size vs = none ↔
      ∀ v ∈ vs, (v.number == version) = false) := by
  intro vs
  induction vs with
  | nil => simp [updateFirstVersion]
  | cons v rest ih =>
    by_cases hv : (v.number == version) = true
    · simp only [updateFirstVersion, hv, if_true]
      constructor
      · intro hcon; simp at hcon
      · intro hall
        have := hall v (by simp)
        rw [hv] at this
        simp at this
    · have hv2 : (v.number == version) = false := by simpa using hv
      cases hrec : updateFirstVersion version status rd architecture it board url sha256 md5 size rest with
      | none =>
        have hall := ih.mp hrec
        simp only [updateFirstVersion, hv2, Bool.false_eq_true, if_false, hrec]
        constructor
        · intro _ u hu
          rcases List.mem_cons.mp hu with h1 | h1
          · rw [h1]; exact hv2
          · exact hall u h1
        · intro _; trivial
      | some res =>
        simp only [updateFirstVersion, hv2, Bool.false_eq_true, if_false, hrec]
        constructor
        · intro hcon; simp at hcon
        · intro hall
          have hrest : ∀ u ∈ rest, (u.number == version) = false := fun u hu => hall u (by simp [hu])
          rw [← ih] at hrest
          rw [hrec] at hrest
          simp at hrest

/-- The version-scan reports `changed` exactly when the per-version variant
lists are different afterwards. -/
theorem updateFirstVersion_changed_iff (version status : String) (rd : Option String)
    (architecture : String) (it : ImgTypeId) (board url sha256 md5 : String) (size : Int) :
    ∀ (vs : List RVersion) (res : List RVersion × List Sig × Bool),
    updateFirstVersion version status rd architecture it board url sha256 md5 size vs = some res →
    (res.2.2 = true ↔ res.1.map RVersion.variants ≠ vs.map RVersion.variants) := by
  intro vs
  induction vs with
  | nil => intro res h; simp [updateFirstVersion] at h
  | cons v rest ih =>
    intro res h
    by_cases hv : (v.number == version) = true
    · simp only [updateFirstVersion, hv, if_true, Option.some.injEq] at h
      subst h
      simpa using versionUpdateUrl_changed_iff v status rd architecture it board url sha256 md5 size
    · simp only [updateFirstVersion, hv, Bool.false_eq_true, if_false] at h
      cases hrec : updateFirstVersion version status rd architecture it board url sha256 md5 size rest with
      | none => rw [hrec] at h; simp at h
      | some res2 =>
        rw [hrec] at h
        simp only [Option.some.injEq] at h
        subst h
        simpa using ih res2 hrec

/-- C2 amended: the return value of the merge does not reflect status or
releaseDate mutations. When no stored version carries the incoming number the
merge inserts and returns true unconditionally; when one does, it returns
true exactly when the per-version variant lists (their url/sha256/size and
inserted variants) changed. -/
theorem merge_return_amended :
    ∀ (r : RRelease) (version status : String) (rd : Option String) (architecture : String)
      (it : ImgTypeId) (board url sha256 md5 : String) (size : Int),
    ((∀ v ∈ r.versions, v.number ≠ version) →
      (releaseUpdateUrl r version status rd architecture it board url sha256 md5 size).2.2 = true) ∧
    ((∃ v ∈ r.versions, v.number = version) →
      ((releaseUpdateUrl r version status rd architecture it board url sha256 md5 size).2.2 = true ↔
        (releaseUpdateUrl r version status rd architecture it board url sha256 md5 size).1.versions.map RVersion.variants ≠
          r.versions.map RVersion.variants)) := by
  intro r version status rd architecture it board url sha256 md5 size
  constructor
  · intro hnone
    have hscan : updateFirstVersion version status rd architecture it board url sha256 md5 size r.versions = none :=
      (updateFirstVersion_none_iff version status rd architecture it board url sha256 md5 size r.versions).mpr
        (fun v hv => by simpa using hnone v hv)
    unfold releaseUpdateUrl
    rw [hscan]
    by_cases hfin : countFinal r.versions + (if statusFromString status = VStatus.FINAL then 1 else 0) > 2
    · simp [hfin]
    · simp [hfin]
  · intro hsome
    cases hscan : updateFirstVersion version status rd architecture it board url sha256 md5 size r.versions with
    | none =>
      rw [updateFirstVersion_none_iff] at hscan
      obtain ⟨v, hv, hnum⟩ := hsome
      have := hscan v hv
      simp [hnum] at this
    | some res =>
      have key := updateFirstVersion_changed_iff version status rd architecture it board url sha256 md5 size
        r.versions res hscan
      unfold releaseUpdateUrl
      rw [hscan]
      simpa using key

/-- C2 witness: for the BETA release and a record matching version "9" with
identical variant fields, the returned false coincides with the unchanged
variant data. -/
theorem merge_return_amended_witness :
    ((releaseUpdateUrl relBeta "9" "0" none "x86-64" ImgTypeId.ISO "PC" "http://a9" "" "" 0).2.2 = true ↔
      (releaseUpdateUrl relBeta "9" "0" none "x86-64" ImgTypeId.ISO "PC" "http://a9" "" "" 0).1.versions.map RVersion.variants ≠
        relBeta.versions.map RVersion.variants) :=
  (merge_return_amended relBeta "9" "0" none "x86-64" ImgTypeId.ISO "PC" "http://a9" "" "" 0).2
    ⟨relBeta.versions.head (by decide), by simp [relBeta], by decide⟩

/-- Conversion of a false url/sha merge flag into its disjunctive form. -/
theorem strFlagFalse {a b : String} (h : ¬((a != "" && qtrim b != qtrim a) = true)) :
    a = "" ∨ qtrim b = qtrim a := by
  by_cases he : a = ""
  · exact Or.inl he
  · right
    by_contra hne
    exact h (by simp [he, hne])

/-- Conversion of a false size merge flag into its disjunctive form. -/
theorem intFlagFalse {a b : Int} (h : ¬((a != 0 && b != a) = true)) : a = 0 ∨ b = a := by
  by_cases he : a = 0
  · exact Or.inl he
  · right
    by_contra hne
    exact h (by simp [he, hne])

/-- A variant-level merge whose incoming url is empty or trim-equal, sha256
empty or trim-equal, and size zero or equal, is a silent no-op. -/
theorem variantUpdateUrl_noop (v : Variant) (url sha256 : String) (size : Int)
    (hu : url = "" ∨ qtrim v.url = qtrim url)
    (hs : sha256 = "" ∨ qtrim v.shaHash = qtrim sha256)
    (hz : size = 0 ∨ v.size = size) :
    variantUpdateUrl v url sha256 size = (v, [], false) := by
  unfold variantUpdateUrl
  have h1 : (url != "" && qtrim v.url != qtrim url) = false := by
    rcases hu with h | h <;> simp [h]
  have h2 : (sha256 != "" && qtrim v.shaHash != qtrim sha256) = false := by
    rcases hs with h | h <;> simp [h]
  have h3 : (size != 0 && v.size != size) = false := by
    rcases hz with h | h <;> simp [h]
  simp [h1, h2, h3]

/-- A variant-level merge whose incoming fields already equal the stored ones
is a silent no-op. -/
theorem variantUpdateUrl_self (v : Variant) (url sha256 : String) (size : Int)
    (hu : v.url = url) (hs : v.shaHash = sha256) (hz : v.size = size) :
    variantUpdateUrl v url sha256 size = (v, [], false) :=
  variantUpdateUrl_noop v url sha256 size (Or.inr (by rw [hu])) (Or.inr (by rw [hs]))
    (Or.inr hz)

/-- The variant-level merge never touches arch, board, imageType or md5. -/
theorem variantUpdateUrl_frame (v : Variant) (url sha256 : String) (size : Int) :
    (variantUpdateUrl v url sha256 size).1.arch = v.arch ∧
    (variantUpdateUrl v url sha256 size).1.board = v.board := by
  unfold variantUpdateUrl
  by_cases hu : (url != "" && qtrim v.url != qtrim url) = true <;>
    by_cases hs : (sha256 != "" && qtrim v.shaHash != qtrim sha256) = true <;>
      by_cases hz : (size != 0 && v.size != size) = true <;>
        simp [hu, hs, hz]

/-- Repeating a variant-level merge is a silent no-op. -/
theorem variantUpdateUrl_idem (v : Variant) (url sha256 : String) (size : Int) :
    variantUpdateUrl (variantUpdateUrl v url sha256 size).1 url sha256 size =
      ((variantUpdateUrl v url sha256 size).1, [], false) := by
  have expand : ∀ w : Variant, variantUpdateUrl w url sha256 size =
      ((if (size != 0 && w.size != size) = true then
          { (if (sha256 != "" && qtrim w.shaHash != qtrim sha256) = true then
              { (if (url != "" && qtrim w.url != qtrim url) = true then { w with url := url } else w) with
                shaHash := sha256 }
            else (if (url != "" && qtrim w.url != qtrim url) = true then { w with url := url } else w)) with
            size := size }
        else
          (if (sha256 != "" && qtrim w.shaHash != qtrim sha256) = true then
            { (if (url != "" && qtrim w.url != qtrim url) = true then { w with url := url } else w) with
              shaHash := sha256 }
          else (if (url != "" && qtrim w.url != qtrim url) = true then { w with url := url } else w))),
       (if (url != "" && qtrim w.url != qtrim url) = true then [Sig.urlChanged] else []) ++
         (if (sha256 != "" && qtrim w.shaHash != qtrim sha256) = true then [Sig.shaHashChanged] else []) ++
         (if (size != 0 && w.size != size) = true then [Sig.sizeChanged] else []),
       ((url != "" && qtrim w.url != qtrim url) || (sha256 != "" && qtrim w.shaHash != qtrim sha256) ||
         (size != 0 && w.size != size))) := by
    intro w
    rfl
  by_cases hu : (url != "" && qtrim v.url != qtrim url) = true <;>
    by_cases hs : (sha256 != "" && qtrim v.shaHash != qtrim sha256) = true <;>
      by_cases hz : (size != 0 && v.size != size) = true <;>
        · refine variantUpdateUrl_noop _ _ _ _ ?_ ?_ ?_
          · first
            | (right; rw [expand v]; simp [hu, hs, hz]; done)
            | (rcases strFlagFalse hu with h | h
               · exact Or.inl h
               · right; rw [expand v]; simp [hu, hs, hz, h]; done)
          · first
            | (right; rw [expand v]; simp [hu, hs, hz]; done)
            | (rcases strFlagFalse hs with h | h
               · exact Or.inl h
               · right; rw [expand v]; simp [hu, hs, hz, h]; done)
          · first
            | (right; rw [expand v]; simp [hu, hs, hz]; done)
            | (rcases intFlagFalse hz with h | h
               · exact Or.inl h
               · right; rw [expand v]; simp [hu, hs, hz, h]; done)

/-- Repeating a variant-scan merge is a silent no-op on the resulting list. -/
theorem updateFirstVariant_idem (archP : Option ArchId) (board url sha256 : String) (size : Int) :
    ∀ (vs : List Variant) (res : List Variant × List Sig × Bool),
    updateFirstVariant archP board url sha256 size vs = some res →
    updateFirstVariant archP board url sha256 size res.1 = some (res.1, [], false) := by
  intro vs
  induction vs with
  | nil => intro res h; simp [updateFirstVariant] at h
  | cons v rest ih =>
    intro res h
    by_cases hv : (v.arch == archP && v.board == board) = true
    · simp only [updateFirstVariant, hv, if_true, Option.some.injEq] at h
      subst h
      have hframe := variantUpdateUrl_frame v url sha256 size
      have hv2 : ((variantUpdateUrl v url sha256 size).1.arch == archP &&
          (variantUpdateUrl v url sha256 size).1.board == board) = true := by
        rw [hframe.1, hframe.2]
        exact hv
      simp only [updateFirstVariant, hv2, if_true, variantUpdateUrl_idem]
    · simp only [updateFirstVariant, hv, Bool.false_eq_true, if_false] at h
      cases hrec : updateFirstVariant archP board url sha256 size rest with
      | none => rw [hrec] at h; simp at h
      | some res2 =>
        rw [hrec] at h
        simp only [Option.some.injEq] at h
        subst h
        have := ih res2 hrec
        simp only [updateFirstVariant, hv, Bool.false_eq_true, if_false, this]

/-- The variant-scan misses exactly when no stored variant matches
the (arch, board) pair. -/
theorem updateFirstVariant_none_iff (archP : Option ArchId) (board url sha256 : String) (size : Int) :
    ∀ vs : List Variant,
    (updateFirstVariant archP board url sha256 size vs = none ↔
      ∀ u ∈ vs, (u.arch == archP && u.board == board) = false) := by
  intro vs
  induction vs with
  | nil => simp [updateFirstVariant]
  | cons v rest ih =>
    by_cases hv : (v.arch == archP && v.board == board) = true
    · simp only [updateFirstVariant, hv, if_true]
      constructor
      · intro hcon; simp at hcon
      · intro hall
        have := hall v (by simp)
        rw [hv] at this
        simp at this
    · have hv2 : (v.arch == archP && v.board == board) = false := by simpa using hv
      cases hrec : updateFirstVariant archP board url sha256 size rest with
      | none =>
        have hall := ih.mp hrec
        simp only [updateFirstVariant, hv2, Bool.false_eq_true, if_false, hrec]
        constructor
        · intro _ u hu
          rcases List.mem_cons.mp hu with h1 | h1
          · rw [h1]; exact hv2
          · exact hall u h1
        · intro _; trivial
      | some res =>
        simp only [updateFirstVariant, hv2, Bool.false_eq_true, if_false, hrec]
        constructor
        · intro hcon; simp at hcon
        · intro hall
          have hrest : ∀ u ∈ rest, (u.arch == archP && u.board == board) = false :=
            fun u hu => hall u (by simp [hu])
          rw [← ih] at hrest
          rw [hrec] at hrest
          simp at hrest

/-- Scanning a list that just received a freshly inserted matching variant
(no earlier variant matches) is a silent no-op finding the fresh variant. -/
theorem updateFirstVariant_fresh (archP : Option ArchId) (board url sha256 : String) (size : Int)
    (nv : Variant) (hnv : (nv.arch == archP && nv.board == board) = true)
    (hself : variantUpdateUrl nv url sha256 size = (nv, [], false)) :
    ∀ (vs : List Variant) (n : Nat),
    (∀ u ∈ vs, (u.arch == archP && u.board == board) = false) →
    updateFirstVariant archP board url sha256 size (linsert vs n nv) =
      some (linsert vs n nv, [], false) := by
  intro vs
  induction vs with
  | nil =>
    intro n _
    cases n <;> simp [linsert, updateFirstVariant, hnv, hself]
  | cons v rest ih =>
    intro n hall
    have hv : (v.arch == archP && v.board == board) = false := hall v (by simp)
    cases n with
    | zero => simp [linsert, updateFirstVariant, hnv, hself]
    | succ m =>
      have hrest := ih m (fun u hu => hall u (by simp [hu]))
      simp only [linsert, updateFirstVariant, hv, Bool.false_eq_true, if_false, hrest]

/-- Explicit form of `versionUpdateUrl`: flattens the let-chain into a record
update with an effective release date. -/
theorem versionUpdateUrl_expand (v : RVersion) (status : String) (rd : Option String)
    (architecture : String) (it : ImgTypeId) (board url sha256 md5 : String) (size : Int) :
    versionUpdateUrl v status rd architecture it board url sha256 md5 size =
      (if statusOrd (statusFromString status) ≤ statusOrd v.status then
        (match updateFirstVariant (fromAbbreviation architecture) board url sha256 size v.variants with
         | some res =>
            ({ v with
                status := statusFromString status,
                releaseDate := if (v.releaseDate != rd && rd.isSome) = true then rd else v.releaseDate,
                variants := res.1 },
             (Sig.statusChanged ::
               (if statusFromString status = VStatus.FINAL then [Sig.prereleaseChanged] else [])) ++
               ((if (v.releaseDate != rd && rd.isSome) = true then [Sig.releaseDateChanged] else []) ++
                 res.2.1),
             res.2.2)
         | none =>
            ({ v with
                status := statusFromString status,
                releaseDate := if (v.releaseDate != rd && rd.isSome) = true then rd else v.releaseDate,
                variants := linsert v.variants
                  (variantInsertOrder (fromAbbreviation architecture) v.variants)
                  { arch := fromAbbreviation architecture, imageType := it, board := board,
                    url := url, shaHash := sha256, md5 := md5, size := size } },
             (Sig.statusChanged ::
               (if statusFromString status = VStatus.FINAL then [Sig.prereleaseChanged] else [])) ++
               (if (v.releaseDate != rd && rd.isSome) = true then [Sig.releaseDateChanged] else []),
             true))
      else (v, [], false)) := by
  unfold versionUpdateUrl
  by_cases hacc : statusOrd (statusFromString status) ≤ statusOrd v.status
  · by_cases hd : (v.releaseDate != rd && rd.isSome) = true
    · cases hscan : updateFirstVariant (fromAbbreviation architecture) board url sha256 size v.variants with
      | some res => simp [hacc, hd, hscan]
      | none => simp [hacc, hd, hscan]
    · cases hscan : updateFirstVariant (fromAbbreviation architecture) board url sha256 size v.variants with
      | some res => simp [hacc, hd, hscan]
      | none => simp [hacc, hd, hscan]
  · simp [hacc]

/-- The version-level merge never changes the version number. -/
theorem versionUpdateUrl_number (v : RVersion) (status : String) (rd : Option String)
    (architecture : String) (it : ImgTypeId) (board url sha256 md5 : String) (size : Int) :
    (versionUpdateUrl v status rd architecture it board url sha256 md5 size).1.number = v.number := by
  rw [versionUpdateUrl_expand]
  by_cases hacc : statusOrd (statusFromString status) ≤ statusOrd v.status
  · cases hscan : updateFirstVariant (fromAbbreviation architecture) board url sha256 size v.variants with
    | some res => simp [hacc, hscan]
    | none => simp [hacc, hscan]
  · simp [hacc]

/-- A version freshly constructed from a record accepts the same record again
as a status-signal-only no-op. -/
theorem versionUpdateUrl_fresh (version status : String) (rd : Option String)
    (architecture : String) (it : ImgTypeId) (board url sha256 md5 : String) (size : Int) :
    versionUpdateUrl
      { number := version, status := statusFromString status, releaseDate := rd,
        variants := [{ arch := fromAbbreviation architecture, imageType := it, board := board,
                       url := url, shaHash := sha256, md5 := md5, size := size }],
        selectedVariant := 0 }
      status rd architecture it board url sha256 md5 size =
      ({ number := version, status := statusFromString status, releaseDate := rd,
         variants := [{ arch := fromAbbreviation architecture, imageType := it, board := board,
                        url := url, shaHash := sha256, md5 := md5, size := size }],
         selectedVariant := 0 },
       Sig.statusChanged ::
         (if statusFromString status = VStatus.FINAL then [Sig.prereleaseChanged] else []),
       false) := by
  rw [versionUpdateUrl_expand]
  have hscan : updateFirstVariant (fromAbbreviation architecture) board url sha256 size
      [{ arch := fromAbbreviation architecture, imageType := it, board := board,
         url := url, shaHash := sha256, md5 := md5, size := size }] =
      some ([{ arch := fromAbbreviation architecture, imageType := it, board := board,
               url := url, shaHash := sha256, md5 := md5, size := size }], [], false) := by
    simp [updateFirstVariant, variantUpdateUrl_self]
  simp [hscan]

/-- The signals of a status-only re-acceptance are statusChanged and possibly
prereleaseChanged. -/
theorem statusSigs_mem (status : String) (sg : Sig)
    (h : sg ∈ Sig.statusChanged ::
      (if statusFromString status = VStatus.FINAL then [Sig.prereleaseChanged] else [])) :
    sg = Sig.statusChanged ∨ sg = Sig.prereleaseChanged := by
  by_cases hf : statusFromString status = VStatus.FINAL
  · simp [hf] at h
    rcases h with h | h
    · exact Or.inl h
    · exact Or.inr h
  · simp [hf] at h
    exact Or.inl h

/-- Repeating a version-level merge keeps the state fixed and emits at most
the status signals. -/
theorem versionUpdateUrl_idem (v : RVersion) (status : String) (rd : Option String)
    (architecture : String) (it : ImgTypeId) (board url sha256 md5 : String) (size : Int) :
    (versionUpdateUrl (versionUpdateUrl v status rd architecture it board url sha256 md5 size).1
        status rd architecture it board url sha256 md5 size).1 =
      (versionUpdateUrl v status rd architecture it board url sha256 md5 size).1 ∧
    ∀ sg ∈ (versionUpdateUrl (versionUpdateUrl v status rd architecture it board url sha256 md5 size).1
        status rd architecture it board url sha256 md5 size).2.1,
      sg = Sig.statusChanged ∨ sg = Sig.prereleaseChanged := by
  by_cases hacc : statusOrd (statusFromString status) ≤ statusOrd v.status
  · have hrdEff : ((if (v.releaseDate != rd && rd.isSome) = true then rd else v.releaseDate) != rd &&
        rd.isSome) = false := by
      by_cases hd : (v.releaseDate != rd && rd.isSome) = true
      · simp [hd]
      · simp only [hd, Bool.false_eq_true, if_false]
    cases hscan : updateFirstVariant (fromAbbreviation architecture) board url sha256 size v.variants with
    | some res =>
      have h1 : versionUpdateUrl v status rd architecture it board url sha256 md5 size =
          ({ v with
              status := statusFromString status,
              releaseDate := if (v.releaseDate != rd && rd.isSome) = true then rd else v.releaseDate,
              variants := res.1 },
           (Sig.statusChanged ::
             (if statusFromString status = VStatus.FINAL then [Sig.prereleaseChanged] else [])) ++
             ((if (v.releaseDate != rd && rd.isSome) = true then [Sig.releaseDateChanged] else []) ++
               res.2.1),
           res.2.2) := by
        rw [versionUpdateUrl_expand]
        simp [hacc, hscan]
      have hscan2 := updateFirstVariant_idem (fromAbbreviation architecture) board url sha256 size
        v.variants res hscan
      have h2 : versionUpdateUrl (versionUpdateUrl v status rd architecture it board url sha256 md5 size).1
          status rd architecture it board url sha256 md5 size =
          ((versionUpdateUrl v status rd architecture it board url sha256 md5 size).1,
           Sig.statusChanged ::
             (if statusFromString status = VStatus.FINAL then [Sig.prereleaseChanged] else []),
           false) := by
        rw [h1]
        rw [versionUpdateUrl_expand]
        simp [hacc, hscan2, hrdEff]
      rw [h2]
      exact ⟨rfl, fun sg hsg => statusSigs_mem status sg hsg⟩
    | none =>
      have hall := (updateFirstVariant_none_iff (fromAbbreviation architecture) board url sha256 size
        v.variants).mp hscan
      have hfreshVar : variantUpdateUrl
          { arch := fromAbbreviation architecture, imageType := it, board := board,
            url := url, shaHash := sha256, md5 := md5, size := size } url sha256 size =
          ({ arch := fromAbbreviation architecture, imageType := it, board := board,
             url := url, shaHash := sha256, md5 := md5, size := size }, [], false) :=
        variantUpdateUrl_self _ _ _ _ rfl rfl rfl
      have hscan2 := updateFirstVariant_fresh (fromAbbreviation architecture) board url sha256 size
        { arch := fromAbbreviation architecture, imageType := it, board := board,
          url := url, shaHash := sha256, md5 := md5, size := size }
        (by simp) hfreshVar v.variants
        (variantInsertOrder (fromAbbreviation architecture) v.variants) hall
      have h1 : versionUpdateUrl v status rd architecture it board url sha256 md5 size =
          ({ v with
              status := statusFromString status,
              releaseDate := if (v.releaseDate != rd && rd.isSome) = true then rd else v.releaseDate,
              variants := linsert v.variants
                (variantInsertOrder (fromAbbreviation architecture) v.variants)
                { arch := fromAbbreviation architecture, imageType := it, board := board,
                  url := url, shaHash := sha256, md5 := md5, size := size } },
           (Sig.statusChanged ::
             (if statusFromString status = VStatus.FINAL then [Sig.prereleaseChanged] else [])) ++
             (if (v.releaseDate != rd && rd.isSome) = true then [Sig.releaseDateChanged] else []),
           true) := by
        rw [versionUpdateUrl_expand]
        simp [hacc, hscan]
      have h2 : versionUpdateUrl (versionUpdateUrl v status rd architecture it board url sha256 md5 size).1
          status rd architecture it board url sha256 md5 size =
          ((versionUpdateUrl v status rd architecture it board url sha256 md5 size).1,
           Sig.statusChanged ::
             (if statusFromString status = VStatus.FINAL then [Sig.prereleaseChanged] else []),
           false) := by
        rw [h1]
        rw [versionUpdateUrl_expand]
        simp [hacc, hscan2, hrdEff]
      rw [h2]
      exact ⟨rfl, fun sg hsg => statusSigs_mem status sg hsg⟩
  · have h1 : versionUpdateUrl v status rd architecture it board url sha256 md5 size = (v, [], false) := by
      rw [versionUpdateUrl_expand]
      simp [hacc]
    rw [h1, h1]
    exact ⟨rfl, by simp⟩

/-- Repeating a version-scan merge keeps the list fixed and emits at most the
status signals. -/
theorem updateFirstVersion_idem (version status : String) (rd : Option String)
    (architecture : String) (it : ImgTypeId) (board url sha256 md5 : String) (size : Int) :
    ∀ (vs : List RVersion) (res : List RVersion × List Sig × Bool),
    updateFirstVersion version status rd architecture it board url sha256 md5 size vs = some res →
    ∃ sigs2 b2,
      updateFirstVersion version status rd architecture it board url sha256 md5 size res.1 =
        some (res.1, sigs2, b2) ∧
      ∀ sg ∈ sigs2, sg = Sig.statusChanged ∨ sg = Sig.prereleaseChanged := by
  intro vs
  induction vs with
  | nil => intro res h; simp [updateFirstVersion] at h
  | cons v rest ih =>
    intro res h
    by_cases hv : (v.number == version) = true
    · simp only [updateFirstVersion, hv, if_true, Option.some.injEq] at h
      subst h
      have hidem := versionUpdateUrl_idem v status rd architecture it board url sha256 md5 size
      have hnum : ((versionUpdateUrl v status rd architecture it board url sha256 md5 size).1.number ==
          version) = true := by
        rw [versionUpdateUrl_number]
        exact hv
      refine ⟨(versionUpdateUrl (versionUpdateUrl v status rd architecture it board url sha256 md5 size).1
          status rd architecture it board url sha256 md5 size).2.1,
        (versionUpdateUrl (versionUpdateUrl v status rd architecture it board url sha256 md5 size).1
          status rd architecture it board url sha256 md5 size).2.2, ?_, hidem.2⟩
      simp only [updateFirstVersion, hnum, if_true, Option.some.injEq]
      rw [hidem.1]
    · simp only [updateFirstVersion, hv, Bool.false_eq_true, if_false] at h
      cases hrec : updateFirstVersion version status rd architecture it board url sha256 md5 size rest with
      | none => rw [hrec] at h; simp at h
      | some res2 =>
        rw [hrec] at h
        simp only [Option.some.injEq] at h
        subst h
        obtain ⟨sigs2, b2, hsecond, hmem⟩ := ih res2 hrec
        refine ⟨sigs2, b2, ?_, hmem⟩
        simp only [updateFirstVersion, hv, Bool.false_eq_true, if_false, hsecond]

/-- Members of a sorted insertion are the new version or old members. -/
theorem mem_insSorted (ver : RVersion) :
    ∀ (vs : List RVersion) (x : RVersion), x ∈ insSorted ver vs → x = ver ∨ x ∈ vs := by
  intro vs
  induction vs with
  | nil =>
    intro x hx
    simp [insSorted] at hx
    exact Or.inl hx
  | cons v rest ih =>
    intro x hx
    by_cases h : qstrLt v.number ver.number = true
    · simp only [insSorted, h, if_true] at hx
      rcases List.mem_cons.mp hx with h1 | h1
      · exact Or.inl h1
      · exact Or.inr h1
    · have h2 : qstrLt v.number ver.number = false := by simpa using h
      simp only [insSorted, h2, Bool.false_eq_true, if_false] at hx
      rcases List.mem_cons.mp hx with h1 | h1
      · exact Or.inr (by simp [h1])
      · rcases ih x h1 with h3 | h3
        · exact Or.inl h3
        · exact Or.inr (by simp [h3])

/-- Scanning a sorted insertion of a fresh matching version (no old version
matches) finds the fresh version and is a status-signal-only no-op. -/
theorem updateFirstVersion_fresh_scan (version status : String) (rd : Option String)
    (architecture : String) (it : ImgTypeId) (board url sha256 md5 : String) (size : Int)
    (ver : RVersion) (hnum : (ver.number == version) = true)
    (hself : versionUpdateUrl ver status rd architecture it board url sha256 md5 size =
      (ver, Sig.statusChanged ::
        (if statusFromString status = VStatus.FINAL then [Sig.prereleaseChanged] else []), false)) :
    ∀ vs : List RVersion,
    (∀ u ∈ vs, (u.number == version) = false) →
    updateFirstVersion version status rd architecture it board url sha256 md5 size (insSorted ver vs) =
      some (insSorted ver vs,
        Sig.statusChanged ::
          (if statusFromString status = VStatus.FINAL then [Sig.prereleaseChanged] else []),
        false) := by
  intro vs
  induction vs with
  | nil =>
    intro _
    simp [insSorted, updateFirstVersion, hnum, hself]
  | cons v rest ih =>
    intro hall
    have hv : (v.number == version) = false := hall v (by simp)
    by_cases h : qstrLt v.number ver.number = true
    · simp [insSorted, h, updateFirstVersion, hnum, hself, hv]
    · have h2 : qstrLt v.number ver.number = false := by simpa using h
      have hrest := ih (fun u hu => hall u (by simp [hu]))
      simp only [insSorted, h2, Bool.false_eq_true, if_false, updateFirstVersion, hv, hrest]

/-- When every stored number is at or above the sentinel "0", the eviction
scan never elects a version. -/
theorem evictScan_none :
    ∀ (vs : List RVersion) (i : Nat) (old : Option Nat),
    (∀ v ∈ vs, qstrLt v.number "0" = false) → evictScan vs i "0" old = old := by
  intro vs
  induction vs with
  | nil => intro i old _; rfl
  | cons v rest ih =>
    intro i old hall
    have hv := hall v (by simp)
    simp only [evictScan, hv, Bool.false_eq_true, if_false]
    exact ih (i + 1) old (fun u hu => hall u (by simp [hu]))

/-- C4 counterexample: applying the identical record twice leaves the catalog
state unchanged, but the second application does raise a change notification:
statusChanged is re-emitted on every accepted update. -/
theorem merge_idempotent_counterexample :
    Sig.statusChanged ∈
      (managerUpdateUrl
        (managerUpdateUrl [relTwoFinal] "work" "9" "0" none "x86-64" ImgTypeId.ISO "PC" "http://a9" "" "" 0).1
        "work" "9" "0" none "x86-64" ImgTypeId.ISO "PC" "http://a9" "" "" 0).2.1 ∧
    (managerUpdateUrl
        (managerUpdateUrl [relTwoFinal] "work" "9" "0" none "x86-64" ImgTypeId.ISO "PC" "http://a9" "" "" 0).1
        "work" "9" "0" none "x86-64" ImgTypeId.ISO "PC" "http://a9" "" "" 0).1 =
      (managerUpdateUrl [relTwoFinal] "work" "9" "0" none "x86-64" ImgTypeId.ISO "PC" "http://a9" "" "" 0).1 := by
  decide

/-- C4 amended: for any record and release whose version numbers sit at or
above the sentinel "0" (every real numeric version string does), applying the
identical record twice leaves the release state after the second application
equal to the state after the first, and the second application emits at most
statusChanged and prereleaseChanged: no urlChanged, shaHashChanged,
sizeChanged, releaseDateChanged, versionsChanged or selection signal. -/
theorem merge_idempotent_amended :
    ∀ (r : RRelease) (version status : String) (rd : Option String) (architecture : String)
      (it : ImgTypeId) (board url sha256 md5 : String) (size : Int),
    qstrLt version "0" = false →
    (∀ v ∈ r.versions, qstrLt v.number "0" = false) →
    ((releaseUpdateUrl (releaseUpdateUrl r version status rd architecture it board url sha256 md5 size).1
        version status rd architecture it board url sha256 md5 size).1 =
      (releaseUpdateUrl r version status rd architecture it board url sha256 md5 size).1) ∧
    (∀ sg ∈ (releaseUpdateUrl (releaseUpdateUrl r version status rd architecture it board url sha256 md5 size).1
        version status rd architecture it board url sha256 md5 size).2.1,
      sg = Sig.statusChanged ∨ sg = Sig.prereleaseChanged) := by
  intro r version status rd architecture it board url sha256 md5 size hver hall
  cases hscan : updateFirstVersion version status rd architecture it board url sha256 md5 size r.versions with
  | some res =>
    have h1 : releaseUpdateUrl r version status rd architecture it board url sha256 md5 size =
        ({ r with versions := res.1 }, res.2.1, res.2.2) := by
      unfold releaseUpdateUrl
      rw [hscan]
    obtain ⟨sigs2, b2, hsecond, hmem⟩ :=
      updateFirstVersion_idem version status rd architecture it board url sha256 md5 size
        r.versions res hscan
    have h2 : releaseUpdateUrl ({ r with versions := res.1 } : RRelease)
        version status rd architecture it board url sha256 md5 size =
        ({ r with versions := res.1 }, sigs2, b2) := by
      unfold releaseUpdateUrl
      rw [show ({ r with versions := res.1 } : RRelease).versions = res.1 from rfl, hsecond]
    rw [h1, h2]
    exact ⟨rfl, hmem⟩
  | none =>
    have hnone := (updateFirstVersion_none_iff version status rd architecture it
        board url sha256 md5 size r.versions).mp hscan
    have hfresh := versionUpdateUrl_fresh version status rd architecture it board url sha256 md5 size
    have hp1 : (releaseUpdateUrl r version status rd architecture it board url sha256 md5 size).1 =
        (addVersion r
          { number := version, status := statusFromString status, releaseDate := rd,
            variants := [{ arch := fromAbbreviation architecture, imageType := it, board := board,
                           url := url, shaHash := sha256, md5 := md5, size := size }],
            selectedVariant := 0 }).1 := by
      unfold releaseUpdateUrl
      rw [hscan]
      have hmem0 : ∀ v ∈ (addVersion r
          { number := version, status := statusFromString status, releaseDate := rd,
            variants := [{ arch := fromAbbreviation architecture, imageType := it, board := board,
                           url := url, shaHash := sha256, md5 := md5, size := size }],
            selectedVariant := 0 }).1.versions, qstrLt v.number "0" = false := by
        rw [addVersion_versions]
        intro x hx
        rcases mem_insSorted _ r.versions x hx with h | h
        · rw [h]; exact hver
        · exact hall x h
      have hevict := evictScan_none _ 0 none hmem0
      by_cases hfin : countFinal r.versions +
          (if statusFromString status = VStatus.FINAL then 1 else 0) > 2
      · simp [hfin, hevict, removeVersion]
      · simp [hfin]
    have hscan2 := updateFirstVersion_fresh_scan version status rd architecture it board url sha256 md5 size
      { number := version, status := statusFromString status, releaseDate := rd,
        variants := [{ arch := fromAbbreviation architecture, imageType := it, board := board,
                       url := url, shaHash := sha256, md5 := md5, size := size }],
        selectedVariant := 0 }
      (by simp) hfresh r.versions hnone
    have h2 : releaseUpdateUrl (addVersion r
        { number := version, status := statusFromString status, releaseDate := rd,
          variants := [{ arch := fromAbbreviation architecture, imageType := it, board := board,
                         url := url, shaHash := sha256, md5 := md5, size := size }],
          selectedVariant := 0 }).1 version status rd architecture it board url sha256 md5 size =
        ((addVersion r
          { number := version, status := statusFromString status, releaseDate := rd,
            variants := [{ arch := fromAbbreviation architecture, imageType := it, board := board,
                           url := url, shaHash := sha256, md5 := md5, size := size }],
            selectedVariant := 0 }).1,
         Sig.statusChanged ::
           (if statusFromString status = VStatus.FINAL then [Sig.prereleaseChanged] else []),
         false) := by
      unfold releaseUpdateUrl
      rw [addVersion_versions, hscan2, ← addVersion_versions]
    rw [hp1, h2]
    refine ⟨rfl, fun sg hsg => statusSigs_mem status sg hsg⟩

/-- C4 witness: the double application of a concrete FINAL "40" record to the
two-final release keeps the state fixed after the first application. -/
theorem merge_idempotent_amended_witness :
    (releaseUpdateUrl (releaseUpdateUrl relTwoFinal "40" "0" none "x86-64" ImgTypeId.ISO "PC" "http://a40" "" "" 0).1
        "40" "0" none "x86-64" ImgTypeId.ISO "PC" "http://a40" "" "" 0).1 =
      (releaseUpdateUrl relTwoFinal "40" "0" none "x86-64" ImgTypeId.ISO "PC" "http://a40" "" "" 0).1 :=
  (merge_idempotent_amended relTwoFinal "40" "0" none "x86-64" ImgTypeId.ISO "PC" "http://a40" "" "" 0
    (by decide) (by decide)).1
